import Mathlib

/-!
Shallow embedding of the rspotify authorization/token-lifecycle core.

Strings are modelled as `List Char`; the iteration sequence of a Rust
`HashMap` is modelled as an association list `List (List Char × List Char)`
in iteration order; Rust `i64`/`u32`/`u64` values are modelled as `Int`/`Nat`
with explicit range hypotheses where the claims need them; a Rust panic
(out-of-bounds index) is modelled by returning `none`.
-/

namespace RSpotify

/-- The string type of the embedding: a Rust `&str` as a list of characters. -/
abbrev Str := List Char

/-! ## `src/spotify/util.rs`: query-string helpers -/

/-- Rust `str::split(sep)` specialised to a one-character separator:
splits on every occurrence of `c`, keeping empty segments, and yields
`[[]]` on the empty string (Rust `"".split(c)` yields one empty item). -/
def splitOnChar (c : Char) : Str → List Str
  | [] => [[]]
  | x :: xs =>
    if x = c then
      [] :: splitOnChar c xs
    else
      match splitOnChar c xs with
      | [] => [[x]]
      | s :: ss => (x :: s) :: ss

/-- `convert_map_to_string` (util.rs 28-37): for each entry of the map, in
the `HashMap`'s iteration order, append `key`, `"="`, `value`, `"&"` to an
accumulator string. -/
def convert_map_to_string (map : List (Str × Str)) : Str :=
  map.foldl (fun string p => string ++ p.1 ++ ['='] ++ p.2 ++ ['&']) []

/-- Rust `HashMap::insert`: overwrite the value when the key is present,
otherwise add the new entry. -/
def hashMapInsert (k v : Str) (m : List (Str × Str)) : List (Str × Str) :=
  if m.any (fun p => p.1 = k) then
    m.map (fun p => if p.1 = k then (k, v) else p)
  else
    m ++ [(k, v)]

/-- The `for token in tokens` loop of `convert_str_to_map` (util.rs 52-60):
split each token on `=` and insert `(vec[0], vec[1])` into the map.  The
unguarded `vec[1]` index panics when a token contains no `=`; the panic is
modelled as `none`. -/
def convert_str_to_map_loop : List Str → List (Str × Str) → Option (List (Str × Str))
  | [], map => some map
  | token :: rest, map =>
    match splitOnChar '=' token with
    | k :: v :: _ => convert_str_to_map_loop rest (hashMapInsert k v map)
    | _ => none

/-- `convert_str_to_map` (util.rs 46-62): split the query string on `&`,
drop empty tokens, then run the insertion loop starting from the empty
map. -/
def convert_str_to_map (query_str : Str) : Option (List (Str × Str)) :=
  convert_str_to_map_loop
    ((splitOnChar '&' query_str).filter (fun token => !token.isEmpty)) []

/-! ## `src/spotify/util.rs`: time and randomness -/

/-- A `chrono::DateTime<Utc>` instant: whole seconds since the epoch plus a
subsecond nanosecond part. -/
structure DateTimeU where
  secs : Int
  nanos : Nat
deriving DecidableEq, Repr

/-- `chrono::DateTime::timestamp`: whole seconds since the epoch. -/
def DateTimeU.timestamp (dt : DateTimeU) : Int :=
  dt.secs

/-- `chrono::DateTime::timestamp_millis`: epoch milliseconds, i.e. the
second part scaled by 1000 plus the whole-millisecond part of the
nanoseconds. -/
def DateTimeU.timestamp_millis (dt : DateTimeU) : Int :=
  dt.secs * 1000 + (dt.nanos / 1000000 : Nat)

/-- The instant `elapsed` whole seconds after `dt`. -/
def DateTimeU.addSecs (dt : DateTimeU) (elapsed : Nat) : DateTimeU :=
  ⟨dt.secs + elapsed, dt.nanos⟩

/-- `datetime_to_timestamp` (util.rs 10-13): read the current instant and
return `utc.timestamp() + elapsed as i64`.  The hidden `Utc::now()` call is
made explicit as the `utc` argument; `elapsed` is the Rust `u32` lifetime. -/
def datetime_to_timestamp (utc : DateTimeU) (elapsed : Nat) : Int :=
  utc.timestamp + (elapsed : Int)

/-- The 62-character alphanumeric alphabet that `rand`'s
`gen_ascii_chars` draws from. -/
def asciiChars : List Char :=
  "ABCDEFGHIJKLMNOPQRSTUVWXYZabcdefghijklmnopqrstuvwxyz0123456789".toList

/-- `generate_random_string` (util.rs 15-17): take `length` characters from
the thread RNG's infinite stream of uniformly chosen alphanumeric
characters and collect them.  The RNG stream is made explicit as a function
`Nat → Fin 62` giving the successive uniform draws. -/
def generate_random_string (length : Nat) (rng : Nat → Fin 62) : Str :=
  (List.range length).map (fun i => asciiChars.get (Fin.cast (by decide) (rng i)))

/-! ## `src/model/mod.rs`: millisecond-timestamp (de)serialization -/

/-- `DateTimeVisitor::visit_u64` (mod.rs 70-82), the body of
`from_millisecond_timestamp`: from a `u64` millisecond timestamp `v` build
the instant with seconds `(v - v % 1000) / 1000` and nanoseconds
`(v % 1000) * 1000000`. -/
def from_millisecond_timestamp (v : Nat) : DateTimeU :=
  ⟨((v - v % 1000) / 1000 : Nat), (v % 1000) * 1000000⟩

/-- `to_millisecond_timestamp` (mod.rs 93-99): serialize the instant as
`x.timestamp_millis()`. -/
def to_millisecond_timestamp (x : DateTimeU) : Int :=
  x.timestamp_millis

/-! ## `src/model/mod.rs`: Spotify id parsing -/

/-- `IdError` (mod.rs 236-247). -/
inductive IdError where
  | InvalidPrefix
  | InvalidFormat
  | InvalidType
  | InvalidId
deriving DecidableEq, Repr

/-- Rust `char::is_ascii_alphanumeric`. -/
def is_ascii_alphanumeric (c : Char) : Bool :=
  ('0' ≤ c && c ≤ '9') || ('A' ≤ c && c ≤ 'Z') || ('a' ≤ c && c ≤ 'z')

/-- `Id::from_id` (mod.rs 327-336): accept the id exactly when every
character is ASCII alphanumeric, otherwise `IdError::InvalidId`. -/
def from_id (id : Str) : Except IdError Str :=
  if id.all (fun ch => is_ascii_alphanumeric ch) then
    Except.ok id
  else
    Except.error IdError.InvalidId

/-! ## Spec-modelled token-record operations

The token lifecycle operations below are implemented in `oauth2.rs`, which
is not among the provided source files; they are modelled from the spec's
words. -/

/-- The credential bundle of spec §3: access token, token type, scope,
optional refresh token, absolute expiry instant. -/
structure TokenRecord where
  access_token : Str
  token_type : Str
  scope : List Str
  refresh_token : Option Str
  expires_at : Int
deriving DecidableEq, Repr

/-- Modelled from the spec: `TokenRecord::is_expired` lives in `oauth2.rs`,
which is not among the provided sources.  Spec §4.2: "`is_expired(self,
now, skew: duration) -> bool` — true iff `now + skew >= expires_at`". -/
def TokenRecord.is_expired (t : TokenRecord) (now skew : Int) : Bool :=
  decide (now + skew ≥ t.expires_at)

/-- Modelled from the spec: the refresh-exchange result handling lives in
`oauth2.rs`, which is not among the provided sources.  Spec §3: "A
TokenRecord received from a refresh exchange that omits a new
`refresh_token` inherits the previous refresh token"; otherwise the new
record replaces the old one wholesale. -/
def apply_refresh_response (old resp : TokenRecord) : TokenRecord :=
  { resp with
    refresh_token :=
      match resp.refresh_token with
      | some r => some r
      | none => old.refresh_token }

end RSpotify

namespace RSpotify

/-! ## Theorems -/

/-- C2 counterexample: at receipt instant 1000 s after the epoch with a
60-second lifetime, the stored expiry `datetime_to_timestamp` produces is
1060, which is not the epoch-millisecond instant of expiry (1060000):
the computation stores epoch seconds, not epoch milliseconds. -/
theorem datetime_to_timestamp_not_milliseconds :
    datetime_to_timestamp ⟨1000, 0⟩ 60
      ≠ DateTimeU.timestamp_millis (DateTimeU.addSecs ⟨1000, 0⟩ 60) := by
  decide

/-- C2 (amended): the persisted expiry value produced by
`datetime_to_timestamp` is the absolute epoch-time integer of the expiry
instant in seconds: for every receipt instant and server-reported
lifetime, the stored value is the epoch-second timestamp of the instant
`elapsed` seconds after receipt. -/
theorem datetime_to_timestamp_epoch_seconds (utc : DateTimeU) (elapsed : Nat) :
    datetime_to_timestamp utc elapsed
      = DateTimeU.timestamp (DateTimeU.addSecs utc elapsed) := by
  simp [datetime_to_timestamp, DateTimeU.timestamp, DateTimeU.addSecs]

/-- C3: the computed expiry equals the receipt instant's absolute epoch
timestamp plus the server-reported lifetime —
`datetime_to_timestamp(elapsed) = timestamp(now) + elapsed`. -/
theorem datetime_to_timestamp_adds_lifetime (utc : DateTimeU) (elapsed : Nat) :
    datetime_to_timestamp utc elapsed = DateTimeU.timestamp utc + elapsed :=
  rfl

/-- C4: for every non-negative epoch-millisecond value within i64 range,
deserializing via `from_millisecond_timestamp` and serializing back via
`to_millisecond_timestamp` yields exactly the original value. -/
theorem millisecond_timestamp_roundtrip (v : Nat) (h : v < 2 ^ 63) :
    to_millisecond_timestamp (from_millisecond_timestamp v) = v := by
  simp only [to_millisecond_timestamp, from_millisecond_timestamp,
    DateTimeU.timestamp_millis]
  omega

/-- C4 witness: the round-trip at the concrete epoch-millisecond value
1234567890123. -/
theorem millisecond_timestamp_roundtrip_witness :
    to_millisecond_timestamp (from_millisecond_timestamp 1234567890123)
      = (1234567890123 : Int) :=
  millisecond_timestamp_roundtrip 1234567890123 (by decide)

/-- C8: `is_expired` returns true iff `now + skew ≥ expires_at`; at the
exact boundary `now + skew = expires_at` the token is expired, and one
time unit before the boundary it is not. -/
theorem is_expired_boundary (t : TokenRecord) (now skew : Int) :
    (t.is_expired now skew = true ↔ now + skew ≥ t.expires_at)
    ∧ (now + skew = t.expires_at → t.is_expired now skew = true)
    ∧ (now + skew + 1 = t.expires_at → t.is_expired now skew = false) := by
  refine ⟨by simp [TokenRecord.is_expired], ?_, ?_⟩ <;>
    · intro h
      simp [TokenRecord.is_expired]
      omega

/-- C8 witness: a record expiring at 100: at `now = 90`, `skew = 10` the
boundary holds and the record is expired; at `now = 89`, `skew = 10` it is
one unit before the boundary and not expired. -/
theorem is_expired_boundary_witness :
    (TokenRecord.mk [] [] [] none 100).is_expired 90 10 = true
    ∧ (TokenRecord.mk [] [] [] none 100).is_expired 89 10 = false :=
  ⟨(is_expired_boundary (TokenRecord.mk [] [] [] none 100) 90 10).2.1 (by decide),
   (is_expired_boundary (TokenRecord.mk [] [] [] none 100) 89 10).2.2 (by decide)⟩

/-- C9: when the refresh exchange's successful response omits a refresh
token, the stored record inherits the previous record's refresh token
while taking every other field (in particular the new access token) from
the response. -/
theorem refresh_inherits_refresh_token (old resp : TokenRecord)
    (h : resp.refresh_token = none) :
    (apply_refresh_response old resp).refresh_token = old.refresh_token
    ∧ (apply_refresh_response old resp).access_token = resp.access_token
    ∧ (apply_refresh_response old resp).expires_at = resp.expires_at := by
  simp [apply_refresh_response, h]

/-- C9 witness: an expired record with refresh token "r" refreshed by a
response with a new access token and no refresh token keeps "r". -/
theorem refresh_inherits_refresh_token_witness :
    (apply_refresh_response
        (TokenRecord.mk ['o'] ['B'] [] (some ['r']) 0)
        (TokenRecord.mk ['n'] ['B'] [] none 900)).refresh_token
      = (TokenRecord.mk ['o'] ['B'] [] (some ['r']) 0).refresh_token
    ∧ (apply_refresh_response
        (TokenRecord.mk ['o'] ['B'] [] (some ['r']) 0)
        (TokenRecord.mk ['n'] ['B'] [] none 900)).access_token
      = (TokenRecord.mk ['n'] ['B'] [] none 900).access_token
    ∧ (apply_refresh_response
        (TokenRecord.mk ['o'] ['B'] [] (some ['r']) 0)
        (TokenRecord.mk ['n'] ['B'] [] none 900)).expires_at
      = (TokenRecord.mk ['n'] ['B'] [] none 900).expires_at :=
  refresh_inherits_refresh_token
    (TokenRecord.mk ['o'] ['B'] [] (some ['r']) 0)
    (TokenRecord.mk ['n'] ['B'] [] none 900) rfl

/-- C10: `from_id` succeeds exactly when every character of the input is
ASCII alphanumeric, and in particular accepts the empty string (the
all-quantifier is vacuously true there), returning `Ok` rather than
`IdError::InvalidId`. -/
theorem from_id_ok_iff_alphanumeric (s : Str) :
    (from_id s = Except.ok s ↔ ∀ c ∈ s, is_ascii_alphanumeric c = true)
    ∧ from_id ([] : Str) = Except.ok [] := by
  constructor
  · unfold from_id
    split
    · rename_i h
      simp only [List.all_eq_true] at h
      exact ⟨fun _ => h, fun _ => rfl⟩
    · rename_i h
      simp only [List.all_eq_true] at h
      exact ⟨fun hcontra => Except.noConfusion hcontra, fun hall => absurd hall h⟩
  · rfl

/-- C10 witness: the equivalence instantiated at the concrete id "a",
together with the concrete acceptance of the empty id. -/
theorem from_id_ok_iff_alphanumeric_witness :
    (from_id ['a'] = Except.ok ['a']
      ↔ ∀ c ∈ (['a'] : Str), is_ascii_alphanumeric c = true)
    ∧ from_id ([] : Str) = Except.ok [] :=
  from_id_ok_iff_alphanumeric ['a']

/-- C1: `convert_str_to_map` is not total — on the query string
`"code=abc&state"`, whose last `&`-separated token contains no `=`, the
unguarded `vec[1]` access panics (modelled as `none`): the caller halts
instead of receiving a typed `MalformedCallback` failure. -/
theorem convert_str_to_map_panics_on_missing_eq :
    convert_str_to_map
      ('c' :: 'o' :: 'd' :: 'e' :: '=' :: 'a' :: 'b' :: 'c' :: '&'
        :: 's' :: 't' :: 'a' :: 't' :: 'e' :: []) = none := by
  decide

/-- The 62-character alphabet of `gen_ascii_chars` has no repeated
character, so distinct draws map to distinct characters. -/
theorem asciiChars_nodup : asciiChars.Nodup := by
  decide

/-- C7: `generate_random_string n` returns exactly `n` characters, and two
invocations whose RNG streams differ anywhere within the `n` consumed
draws produce different strings — so two successive builds with fresh
randomness yield distinct state nonces. -/
theorem generate_random_string_fresh (n : Nat) (r1 r2 : Nat → Fin 62)
    (i : Nat) (hi : i < n) (hne : r1 i ≠ r2 i) :
    (generate_random_string n r1).length = n
    ∧ generate_random_string n r1 ≠ generate_random_string n r2 := by
  refine ⟨by simp [generate_random_string], fun heq => hne ?_⟩
  have h1 : (generate_random_string n r1).get? i
      = (generate_random_string n r2).get? i := by rw [heq]
  simp only [generate_random_string, List.get?_map, List.get?_range hi,
    Option.map_some'] at h1
  have h2 : asciiChars.get (Fin.cast (by decide) (r1 i))
      = asciiChars.get (Fin.cast (by decide) (r2 i)) := Option.some.inj h1
  have h3 := (List.Nodup.get_inj_iff asciiChars_nodup).mp h2
  have h4 := congrArg Fin.val h3
  simp only [Fin.coe_cast] at h4
  exact Fin.ext h4

/-- C7 witness: at length 32, two concrete RNG streams that differ in
their first draw give a 32-character nonce and two distinct nonces. -/
theorem generate_random_string_fresh_witness :
    (generate_random_string 32 (fun _ => (0 : Fin 62))).length = 32
    ∧ generate_random_string 32 (fun _ => (0 : Fin 62))
      ≠ generate_random_string 32 (fun _ => (1 : Fin 62)) :=
  generate_random_string_fresh 32 (fun _ => (0 : Fin 62)) (fun _ => (1 : Fin 62))
    0 (by decide) (by decide)

/-- The `for`-loop of `convert_map_to_string` with an arbitrary
accumulator: the result is the accumulator followed by the `key=value&`
segments in iteration order. -/
theorem convert_map_to_string_acc (l : List (Str × Str)) (a : Str) :
    l.foldl (fun string p => string ++ p.1 ++ ['='] ++ p.2 ++ ['&']) a
      = a ++ (l.map (fun p => p.1 ++ ['='] ++ p.2 ++ ['&'])).join := by
  induction l generalizing a with
  | nil => simp
  | cons p l ih =>
    rw [List.foldl_cons, ih]
    simp [List.append_assoc]

/-- `convert_map_to_string` on a nonempty iteration sequence: the first
entry's `key=value&` segment followed by the string of the rest. -/
theorem convert_map_to_string_cons (k v : Str) (l : List (Str × Str)) :
    convert_map_to_string ((k, v) :: l)
      = (k ++ '=' :: v) ++ '&' :: convert_map_to_string l := by
  simp only [convert_map_to_string]
  rw [List.foldl_cons, convert_map_to_string_acc, convert_map_to_string_acc]
  simp [List.append_assoc]

/-- C5 counterexample: the two-entry maps `{a: 1, b: 2}` iterated in the
two possible orders have equal key/value contents (they are permutations
of one another) yet serialize to different strings: the output depends on
the `HashMap`'s iteration order, not only on the contents. -/
theorem convert_map_to_string_not_canonical :
    List.Perm [((['a'] : Str), (['1'] : Str)), (['b'], ['2'])]
      [(['b'], ['2']), (['a'], ['1'])]
    ∧ convert_map_to_string [(['a'], ['1']), (['b'], ['2'])]
      ≠ convert_map_to_string [(['b'], ['2']), (['a'], ['1'])] :=
  ⟨List.Perm.swap (['b'], ['2']) (['a'], ['1']) [], by decide⟩

/-- C5 (amended): the produced string is the concatenation of the
`key=value&` segments in the map's iteration order — deterministic for a
given iteration sequence, but maps with equal contents iterated in
different orders may serialize differently (the code's own comment says
the order of pairs "may differ from times"). -/
theorem convert_map_to_string_iteration_order (map : List (Str × Str)) :
    convert_map_to_string map
      = (map.map (fun p => p.1 ++ ['='] ++ p.2 ++ ['&'])).join := by
  have h := convert_map_to_string_acc map []
  rw [List.nil_append] at h
  exact h

/-- Rust `split` on a string free of the separator yields the whole string
as the single segment. -/
theorem splitOnChar_of_not_mem {c : Char} {a : Str} (h : c ∉ a) :
    splitOnChar c a = [a] := by
  induction a with
  | nil => rfl
  | cons x xs ih =>
    simp only [List.mem_cons, not_or] at h
    rw [splitOnChar, if_neg (fun hxc => h.1 hxc.symm), ih h.2]

/-- Rust `split` at the first separator occurrence: splitting
`a ++ c :: rest` when `a` is separator-free peels off `a` as the first
segment. -/
theorem splitOnChar_append_sep {c : Char} {a : Str} (h : c ∉ a) (rest : Str) :
    splitOnChar c (a ++ c :: rest) = a :: splitOnChar c rest := by
  induction a with
  | nil => simp [splitOnChar]
  | cons x xs ih =>
    simp only [List.mem_cons, not_or] at h
    rw [List.cons_append, splitOnChar, if_neg (fun hxc => h.1 hxc.symm), ih h.2]

/-- Tokenization of a serialized map: splitting on `&` and dropping empty
tokens recovers exactly the `key=value` tokens in iteration order, as long
as no key or value contains `&`. -/
theorem convert_map_to_string_tokens (map : List (Str × Str))
    (hamp : ∀ p ∈ map, '&' ∉ p.1 ∧ '&' ∉ p.2) :
    (splitOnChar '&' (convert_map_to_string map)).filter (fun t => !t.isEmpty)
      = map.map (fun p => p.1 ++ '=' :: p.2) := by
  induction map with
  | nil => rfl
  | cons p l ih =>
    obtain ⟨k, v⟩ := p
    have hk : '&' ∉ k := (hamp _ (List.mem_cons_self _ _)).1
    have hv : '&' ∉ v := (hamp _ (List.mem_cons_self _ _)).2
    have hkv : '&' ∉ k ++ '=' :: v := by
      simp only [List.mem_append, List.mem_cons, not_or]
      exact ⟨hk, by decide, hv⟩
    rw [convert_map_to_string_cons, splitOnChar_append_sep hkv]
    rw [List.filter_cons_of_pos (by simp)]
    rw [ih (fun q hq => hamp q (List.mem_cons_of_mem _ hq))]
    rfl

/-- The insertion loop of `convert_str_to_map` over well-formed
`key=value` tokens whose keys are fresh for the accumulated map: each
token splits into exactly its key and value, each insertion appends, and
the loop returns the accumulated map followed by the parsed entries. -/
theorem convert_str_to_map_loop_map (l : List (Str × Str))
    (m : List (Str × Str))
    (heq : ∀ p ∈ l, '=' ∉ p.1 ∧ '=' ∉ p.2)
    (hfresh : ∀ p ∈ l, ∀ q ∈ m, p.1 ≠ q.1)
    (hnd : (l.map Prod.fst).Nodup) :
    convert_str_to_map_loop (l.map (fun p => p.1 ++ '=' :: p.2)) m
      = some (m ++ l) := by
  induction l generalizing m with
  | nil => simp [convert_str_to_map_loop]
  | cons p l ih =>
    obtain ⟨k, v⟩ := p
    have hk : '=' ∉ k := (heq _ (List.mem_cons_self _ _)).1
    have hv : '=' ∉ v := (heq _ (List.mem_cons_self _ _)).2
    have hnotin : k ∉ l.map Prod.fst := by
      simp only [List.map_cons, List.nodup_cons] at hnd
      exact hnd.1
    have hany : m.any (fun q => q.1 = k) = false := by
      rw [List.any_eq_false]
      intro q hq
      simp only [decide_eq_true_eq]
      exact fun hq1 => (hfresh _ (List.mem_cons_self _ _) q hq) hq1.symm
    rw [List.map_cons, convert_str_to_map_loop,
      splitOnChar_append_sep hk, splitOnChar_of_not_mem hv]
    show convert_str_to_map_loop (l.map (fun p => p.1 ++ '=' :: p.2))
        (hashMapInsert k v m) = some (m ++ (k, v) :: l)
    have hins : hashMapInsert k v m = m ++ [(k, v)] := by
      rw [hashMapInsert, if_neg (by simp [hany])]
    rw [hins, ih _ (fun q hq => heq q (List.mem_cons_of_mem _ hq))
      ?_ ?_]
    · simp
    · intro q hq r hr
      rcases List.mem_append.mp hr with hrm | hrk
      · exact hfresh q (List.mem_cons_of_mem _ hq) r hrm
      · have hrk2 : r = (k, v) := by simpa using hrk
        subst hrk2
        intro hcontra
        apply hnotin
        have hmem : q.1 ∈ l.map Prod.fst := List.mem_map_of_mem Prod.fst hq
        rw [hcontra] at hmem
        exact hmem
    · simp only [List.map_cons, List.nodup_cons] at hnd
      exact hnd.2

/-- C6: query-string round-trip — for every map whose keys are pairwise
distinct and whose keys and values are non-empty and free of `=` and `&`,
serializing with `convert_map_to_string` and parsing back with
`convert_str_to_map` returns exactly the original map (the trailing `&`
produces an empty segment that parsing discards). -/
theorem query_string_roundtrip (map : List (Str × Str))
    (hfst : ∀ p ∈ map, p.1 ≠ [] ∧ '=' ∉ p.1 ∧ '&' ∉ p.1)
    (hsnd : ∀ p ∈ map, p.2 ≠ [] ∧ '=' ∉ p.2 ∧ '&' ∉ p.2)
    (hnd : (map.map Prod.fst).Nodup) :
    convert_str_to_map (convert_map_to_string map) = some map := by
  rw [convert_str_to_map,
    convert_map_to_string_tokens map
      (fun p hp => ⟨(hfst p hp).2.2, (hsnd p hp).2.2⟩)]
  simpa using
    convert_str_to_map_loop_map map []
      (fun p hp => ⟨(hfst p hp).2.1, (hsnd p hp).2.1⟩)
      (by simp) hnd

/-- C6 witness: the round-trip on the concrete three-entry map used by the
repository's own tests. -/
theorem query_string_roundtrip_witness :
    convert_str_to_map (convert_map_to_string
      [("redirect_uri".toList, "my_uri".toList),
       ("state".toList, "my-state".toList),
       ("scope".toList, "test-scope".toList)])
      = some
      [("redirect_uri".toList, "my_uri".toList),
       ("state".toList, "my-state".toList),
       ("scope".toList, "test-scope".toList)] :=
  query_string_roundtrip _ (by decide) (by decide) (by decide)

end RSpotify
